import Mathlib

/-!
Verification of the `@g-1/workflow` release-automation CLI.

The development shallowly embeds the parts of the repository the claims
touch:

* the task-orchestration engine (`src/core/task-engine.ts`): the
  `WorkflowStep` tree, the mapping `createListrTask`, and the sequential
  execution semantics of the underlying runner;
* the git adapter (`src/core/git-store.ts`): conventional-commit parsing,
  tag creation, and manifest (package.json) version rewriting;
* the release pipeline (`src/workflows/release.ts`): the pre-flight
  uncommitted-changes handling, the step list it builds, version-bump
  inference, changelog generation, and the best-effort deployment steps.

Effectful collaborators (git, the file system, external commands, prompts)
are modelled as explicit inputs: each operation that consults them takes
the collaborator's reply as a parameter, and state mutation is explicit
state passing.
-/

namespace Workflow

/-! ## Task engine: step trees (types/index.ts `WorkflowStep`)

A `skip` field is absent, a literal `boolean | string`, or a predicate on
the shared context; the engine awaits async predicates, so a predicate is
modelled as its (deterministic) evaluated result.  JavaScript truthiness
decides skipping: `true` or a non-empty string skips, `false`, an empty
string, or an absent field does not. -/

inductive SkipRes where
  | b (v : Bool)
  | s (v : String)
deriving DecidableEq

def SkipRes.truthy : SkipRes → Bool
  | .b v => v
  | .s v => !v.isEmpty

/-- The skip reason the runner records: the returned string when one was
returned (a non-empty string; an empty one is falsy and never skips). -/
def SkipRes.reason : SkipRes → Option String
  | .b _ => none
  | .s v => if v.isEmpty then none else some v

inductive SkipF (Ctx : Type) where
  | undef
  | lit (r : SkipRes)
  | fn (f : Ctx → SkipRes)

inductive EnabledF (Ctx : Type) where
  | undef
  | lit (v : Bool)
  | fn (f : Ctx → Bool)

def evalSkip {Ctx : Type} : SkipF Ctx → Ctx → Option SkipRes
  | .undef, _ => none
  | .lit r, _ => some r
  | .fn f, c => some (f c)

/-- An absent `enabled` field defaults to enabled. -/
def evalEnabled {Ctx : Type} : EnabledF Ctx → Ctx → Bool
  | .undef, _ => true
  | .lit v, _ => v
  | .fn f, c => f c

/-- `none` when the step is not skipped, `some reason` when it is. -/
def skipOutcome {Ctx : Type} (sf : SkipF Ctx) (ctx : Ctx) : Option (Option String) :=
  match evalSkip sf ctx with
  | none => none
  | some r => if r.truthy then some r.reason else none

/-- A step's `task` body returns the updated context and the last title set
through `helpers.setTitle` (presentation data), or an error message when it
throws. -/
abbrev TaskFn (Ctx : Type) := Ctx → Except String (Ctx × Option String)

/-- `WorkflowStep`.  `hasSubtasks` records whether the `subtasks` field is
present at all: `createListrTask` tests `if (step.subtasks)`, and a present
array — even an empty one — is truthy in JavaScript and routes the step to
the subtask branch, ignoring `task`.  Leaf task bodies are named by an
identifier resolved in a task environment so invocations are observable. -/
inductive Step (Ctx : Type) : Type where
  | mk (title : String) (enabled : EnabledF Ctx) (skip : SkipF Ctx) (retry : Nat)
       (taskId : Option Nat) (hasSubtasks : Bool) (subtasks : List (Step Ctx))
       (concurrent : Bool)

def Step.title {Ctx : Type} : Step Ctx → String
  | .mk t _ _ _ _ _ _ _ => t

def Step.enabled {Ctx : Type} : Step Ctx → EnabledF Ctx
  | .mk _ e _ _ _ _ _ _ => e

def Step.skip {Ctx : Type} : Step Ctx → SkipF Ctx
  | .mk _ _ s _ _ _ _ _ => s

def Step.taskId {Ctx : Type} : Step Ctx → Option Nat
  | .mk _ _ _ _ i _ _ _ => i

def Step.hasSubtasks {Ctx : Type} : Step Ctx → Bool
  | .mk _ _ _ _ _ h _ _ => h

def Step.subtasks {Ctx : Type} : Step Ctx → List (Step Ctx)
  | .mk _ _ _ _ _ _ l _ => l

/-- Observable execution events: a task-body invocation (with the final
title it set, if any) or a step marked skipped with its reason. -/
inductive Event where
  | invoked (taskId : Nat) (finalTitle : Option String)
  | skipped (title : String) (reason : Option String)
deriving DecidableEq

def invokedIds (evs : List Event) : List Nat :=
  evs.filterMap fun e =>
    match e with
    | .invoked id _ => some id
    | .skipped _ _ => none

/-- `retry` re-attempts: the body is invoked once, and on failure re-invoked
up to `retry` additional times; every attempt is an invocation. -/
def runAttempts {Ctx : Type} (tasks : Nat → TaskFn Ctx) (id : Nat) (ctx : Ctx) :
    Nat → List Event × Except String Ctx
  | 0 =>
    match tasks id ctx with
    | .ok (c, t) => ([.invoked id t], .ok c)
    | .error e => ([.invoked id none], .error e)
  | n + 1 =>
    match tasks id ctx with
    | .ok (c, t) => ([.invoked id t], .ok c)
    | .error _ =>
      let r := runAttempts tasks id ctx n
      (.invoked id none :: r.1, r.2)

/-! Sequential execution semantics of one step / a step list, as
`createListrTask` hands them to the runner with `exitOnError` resolved to
its default `true`: a disabled step is omitted outright, a truthy skip marks
the step skipped without invoking anything, a step with a (present)
`subtasks` field runs the children as a nested sequential run on the same
context, and otherwise the task body runs with `retry` re-attempts.  The
first unrecovered failure stops the run.  A `concurrent := true` group is
dispatched with no ordering guarantee by the real runner; this sequential
model is only appealed to below for concurrent-free trees or single steps. -/
mutual

def execStep {Ctx : Type} (tasks : Nat → TaskFn Ctx) :
    Step Ctx → Ctx → List Event × Except String Ctx
  | .mk title en sk retry taskId hasSubs subs _conc, ctx =>
    if evalEnabled en ctx then
      match skipOutcome sk ctx with
      | some reason => ([.skipped title reason], .ok ctx)
      | none =>
        if hasSubs then execList tasks subs ctx
        else
          match taskId with
          | some id => runAttempts tasks id ctx retry
          | none => ([], .ok ctx)
    else ([], .ok ctx)

def execList {Ctx : Type} (tasks : Nat → TaskFn Ctx) :
    List (Step Ctx) → Ctx → List Event × Except String Ctx
  | [], ctx => ([], .ok ctx)
  | s :: rest, ctx =>
    match execStep tasks s ctx with
    | (evs, .error e) => (evs, .error e)
    | (evs, .ok c) =>
      let r := execList tasks rest c
      (evs ++ r.1, r.2)

end

/-- `TaskEngine.execute`: maps the steps through `createListrTask`, runs
them sequentially (`options.concurrent ?? false`), and wraps a run failure
as `WorkflowExecutionError` with message `Workflow failed: ...`. -/
def TaskEngine.execute {Ctx : Type} (tasks : Nat → TaskFn Ctx)
    (steps : List (Step Ctx)) (ctx : Ctx) : List Event × Except String Ctx :=
  match execList tasks steps ctx with
  | (evs, .ok c) => (evs, .ok c)
  | (evs, .error e) => (evs, .error ("Workflow failed: " ++ e))

/-! Leaf task identifiers in depth-first document order: a step with a
present `subtasks` field contributes its children's leaves (its own `task`
is ignored by `createListrTask`), a leaf contributes its task id if it has
one. -/
mutual

def leafTasksStep {Ctx : Type} : Step Ctx → List Nat
  | .mk _ _ _ _ taskId hasSubs subs _ =>
    if hasSubs then leafTasksList subs else taskId.toList

def leafTasksList {Ctx : Type} : List (Step Ctx) → List Nat
  | [] => []
  | s :: rest => leafTasksStep s ++ leafTasksList rest

end

/-! A tree with no `skip`/`enabled` fields anywhere and no subtask group
marked concurrent. -/
mutual

def plainStep {Ctx : Type} : Step Ctx → Bool
  | .mk _ en sk _ _ hasSubs subs conc =>
    (match en with | .undef => true | _ => false) &&
    (match sk with | .undef => true | _ => false) &&
    (!hasSubs || !conc) && plainList subs

def plainList {Ctx : Type} : List (Step Ctx) → Bool
  | [] => true
  | s :: rest => plainStep s && plainList rest

end

/-! ## Git store: conventional-commit parsing (`GitStore.parseCommit`) -/

/-- A raw log entry as `simple-git` reports it. -/
structure RawCommit where
  hash : String
  message : String
  author_name : String
  dateMs : Int
deriving DecidableEq

/-- `CommitInfo`: the optional fields model JavaScript `undefined` as
`none`; `breaking` is whatever boolean `!!conventionalMatch?.[3]` produces,
wrapped in `some` because the property is always assigned. -/
structure CommitInfo where
  hash : String
  message : String
  author : String
  dateMs : Int
  type? : Option String
  scope? : Option String
  breaking : Option Bool
deriving DecidableEq

/-- `\w` of a JavaScript regex without the unicode flag. -/
def isWordChar (c : Char) : Bool :=
  c.isAlpha || c.isDigit || c == '_'

/-- Characters `.` cannot match in a JavaScript regex (line terminators). -/
def isLineTerm (c : Char) : Bool :=
  c == '\n' || c == '\r' || c.val == 0x2028 || c.val == 0x2029

/-- After the type word: the optional `(\(([^)]+)\))?` group, then `(!)?`,
then the literal `: `, then `(.+)$`.  Returns (scope, breaking, description).
The regex engine's behaviour is deterministic here: `[^)]+` is bounded by
the first `)`, a failed scope or bang group falls back to matching nothing,
after which the next literal cannot match either. -/
def convTail (cs : List Char) : Option (Option String × Bool × String) :=
  let afterScope : List Char → Option String × Option (List Char) := fun l =>
    match l with
    | '(' :: r =>
      (match r.dropWhile (· ≠ ')') with
       | ')' :: r2 =>
         let scope := r.takeWhile (· ≠ ')')
         if scope.isEmpty then (none, none) else (some (String.mk scope), some r2)
       | _ => (none, none))
    | _ => (none, some l)
  match afterScope cs with
  | (_, none) => none
  | (scope, some r) =>
    let bangSplit : Bool × List Char :=
      match r with
      | '!' :: r2 => (true, r2)
      | _ => (false, r)
    match bangSplit.2 with
    | ':' :: ' ' :: d =>
      if d.isEmpty || d.any isLineTerm then none
      else some (scope, bangSplit.1, String.mk d)
    | _ => none

/-- The match of `/^(\w+)(?:\(([^)]+)\))?(!)?: (.+)$/` against a commit
message: type word, optional scope, breaking bang, description. -/
def convMatch (message : String) : Option (String × Option String × Bool × String) :=
  let cs := message.toList
  let ty := cs.takeWhile isWordChar
  if ty.isEmpty then none
  else
    match convTail (cs.dropWhile isWordChar) with
    | none => none
    | some (scope, bang, desc) => some (String.mk ty, scope, bang, desc)

/-- `GitStore.parseCommit`: keeps the raw fields and attaches the parsed
conventional-commit metadata.  On no match, `type`/`scope` are left
`undefined` while `breaking` is assigned `!!undefined = false`. -/
def GitStore.parseCommit (c : RawCommit) : CommitInfo :=
  match convMatch c.message with
  | some (ty, scope, bang, _desc) =>
    { hash := c.hash, message := c.message, author := c.author_name, dateMs := c.dateMs
      type? := some ty, scope? := scope, breaking := some bang }
  | none =>
    { hash := c.hash, message := c.message, author := c.author_name, dateMs := c.dateMs
      type? := none, scope? := none, breaking := some false }

/-! ## Release pipeline: version-bump inference (release.ts, Version calculation) -/

inductive BumpKind where
  | patch
  | minor
  | major
deriving DecidableEq

/-- JavaScript truthiness of an optional boolean field. -/
def optTruthy (o : Option Bool) : Bool := o.getD false

/-- The bump inferred from the commits since the last tag when no kind is
forced: `commits.some(c => c.breaking)`, then `commits.some(c => c.type ===
'feat')`, else patch. -/
def inferBump (commits : List CommitInfo) : BumpKind :=
  if commits.any (fun c => optTruthy c.breaking) then .major
  else if commits.any (fun c => c.type? == some "feat") then .minor
  else .patch

/-- `options.type || 'patch'` overridden by the inference when no type is
forced: net effect is the forced kind when present, else the inference. -/
def versionBumpOf (forced : Option BumpKind) (commits : List CommitInfo) : BumpKind :=
  match forced with
  | some t => t
  | none => inferBump commits

/-! ## Changelog generation (release.ts `generateChangelogEntry`) -/

/-- One `String.replace(/^<ty>(\([^)]+\))?: /, '')` application: strip the
conventional prefix for the given type word when the message starts with it,
otherwise return the message unchanged.  The regex is not global and is
anchored, so at most one strip happens. -/
def stripConvHead (ty : String) (msg : String) : String :=
  let cs := msg.toList
  if ty.toList.isPrefixOf cs then
    let rest := cs.drop ty.length
    match rest with
    | ':' :: ' ' :: d => String.mk d
    | '(' :: r =>
      (match r.dropWhile (· ≠ ')') with
       | ')' :: ':' :: ' ' :: d =>
         if (r.takeWhile (· ≠ ')')).isEmpty then msg else String.mk d
       | _ => msg)
    | _ => msg
  else msg

def isFeatCommit (c : CommitInfo) : Bool := c.type? == some "feat"

def isFixCommit (c : CommitInfo) : Bool := c.type? == some "fix"

/-- `!['feat', 'fix'].includes(c.type)` — an absent type is in no bucket's
list, so unparseable commits land here. -/
def isOtherCommit (c : CommitInfo) : Bool :=
  !(c.type? == some "feat" || c.type? == some "fix")

/-- `generateChangelogEntry(version, commits)`, with the current date (the
`new Date().toISOString().split('T')[0]` read) passed explicitly.  Mirrors
the source's sequential appends: header, then a Features block if any feat
commit exists, then Bug Fixes, then Other Changes. -/
def generateChangelogEntry (today version : String) (commits : List CommitInfo) : String :=
  let entry := "## [" ++ version ++ "] - " ++ today ++ "\n\n"
  let features := commits.filter isFeatCommit
  let fixes := commits.filter isFixCommit
  let others := commits.filter isOtherCommit
  let entry :=
    if features.length > 0 then
      entry ++ "### Features\n\n" ++
        features.foldl (fun acc c => acc ++ "- " ++ stripConvHead "feat" c.message ++ "\n") "" ++ "\n"
    else entry
  let entry :=
    if fixes.length > 0 then
      entry ++ "### Bug Fixes\n\n" ++
        fixes.foldl (fun acc c => acc ++ "- " ++ stripConvHead "fix" c.message ++ "\n") "" ++ "\n"
    else entry
  let entry :=
    if others.length > 0 then
      entry ++ "### Other Changes\n\n" ++
        others.foldl (fun acc c => acc ++ "- " ++ c.message ++ "\n") "" ++ "\n"
    else entry
  entry

/-- The changelog header line for a version and date. -/
def changelogHeader (today version : String) : String :=
  "## [" ++ version ++ "] - " ++ today ++ "\n\n"

/-- A changelog section: empty when the bucket is empty, otherwise the
heading followed by one `- <line>` per commit and a blank line. -/
def changelogSection (heading : String) (line : CommitInfo → String)
    (bucket : List CommitInfo) : String :=
  if bucket.isEmpty then ""
  else "### " ++ heading ++ "\n\n" ++
    bucket.foldl (fun acc c => acc ++ "- " ++ line c ++ "\n") "" ++ "\n"

def featuresSection (commits : List CommitInfo) : String :=
  changelogSection "Features" (fun c => stripConvHead "feat" c.message) (commits.filter isFeatCommit)

def fixesSection (commits : List CommitInfo) : String :=
  changelogSection "Bug Fixes" (fun c => stripConvHead "fix" c.message) (commits.filter isFixCommit)

def othersSection (commits : List CommitInfo) : String :=
  changelogSection "Other Changes" (fun c => c.message) (commits.filter isOtherCommit)

/-! ## Git store: `GitStore.createTag` -/

/-- `String.prototype.includes`. -/
def strContains (hay needle : String) : Bool :=
  decide (needle.toList <:+: hay.toList)

/-- A thrown failure as the caller observes it: a plain `Error` passed
through unchanged, or the `GitError` (`code: 'GIT_ERROR'`) that
`createGitError` builds. -/
inductive GErr where
  | plain (msg : String)
  | gitErr (msg : String)
deriving DecidableEq

/-- The message of the error `createTag` itself throws when the queried tag
list already holds the name. -/
def tagExistsMsg (tagName : String) : String :=
  "Tag " ++ tagName ++ " already exists. Please use a different version or delete the existing tag."

/-- The body of `createTag`'s `try` block: query the tag list, throw the
already-exists error when the name is present, otherwise run
`addAnnotatedTag` when a truthy message was given and `addTag` otherwise.
The collaborator replies (`git.tags()`, the two tag-creation commands) are
inputs. -/
def createTagInner (tagsQ : Except String (List String))
    (addAnnotated addPlain : Except String Unit)
    (tagName : String) (message? : Option String) : Except String Unit :=
  match tagsQ with
  | .error e => .error e
  | .ok tags =>
    if tagName ∈ tags then .error (tagExistsMsg tagName)
    else if (message?.getD "").isEmpty then addPlain
    else addAnnotated

/-- `GitStore.createTag`: the catch block rethrows any error whose message
contains `already exists` unchanged, and wraps every other failure as
`GitError` with prefix `Failed to create tag: <name>`. -/
def GitStore.createTag (tagsQ : Except String (List String))
    (addAnnotated addPlain : Except String Unit)
    (tagName : String) (message? : Option String) : Except GErr Unit :=
  match createTagInner tagsQ addAnnotated addPlain tagName message? with
  | .ok _ => .ok ()
  | .error e =>
    if strContains e "already exists" then .error (.plain e)
    else .error (.gitErr ("Failed to create tag: " ++ tagName ++ ": " ++ e))

/-! ## Git store: `GitStore.updatePackageVersion` (manifest rewrite)

The JavaScript builtins `JSON.parse` and `JSON.stringify(obj, null, 2)` are
modelled below.  Objects are ordered field lists (JavaScript preserves
string-key insertion order; `JSON.parse` keeps the first position and last
value of a duplicate key); numbers are modelled as integers, which covers
every manifest the claims touch. -/

inductive Json where
  | null
  | bool (b : Bool)
  | num (n : Int)
  | str (s : String)
  | arr (elems : List Json)
  | obj (fields : List (String × Json))

/-- Property assignment `o[k] = v` on a parsed object: replace the value in
place when the key exists, append otherwise. -/
def setField : List (String × Json) → String → Json → List (String × Json)
  | [], k, v => [(k, v)]
  | (k', v') :: rest, k, v =>
    if k' = k then (k', v) :: rest else (k', v') :: setField rest k v

def lookupField (fields : List (String × Json)) (k : String) : Option Json :=
  match fields.find? (fun f => f.1 = k) with
  | some f => some f.2
  | none => none

def hexDigit (n : Nat) : Char :=
  if n < 10 then Char.ofNat (48 + n) else Char.ofNat (87 + (n - 10))

/-- `JSON.stringify`'s string quoting: escape the quote, the backslash, the
named control escapes, and remaining control characters as `\u00xx`. -/
def jsonQuote (s : String) : String :=
  let esc : Char → List Char := fun c =>
    if c == '"' then ['\\', '"']
    else if c == '\\' then ['\\', '\\']
    else if c == '\n' then ['\\', 'n']
    else if c == '\t' then ['\\', 't']
    else if c == '\r' then ['\\', 'r']
    else if c.val == 8 then ['\\', 'b']
    else if c.val == 12 then ['\\', 'f']
    else if c.val < 0x20 then
      ['\\', 'u', '0', '0', hexDigit ((c.val.toNat / 16) % 16), hexDigit (c.val.toNat % 16)]
    else [c]
  String.mk ('"' :: (s.toList.flatMap esc) ++ ['"'])

def spaces (n : Nat) : String := String.mk (List.replicate n ' ')

/-! `JSON.stringify(v, null, 2)` at nesting depth `level`: braces and
brackets on their own lines, entries indented two spaces further, empty
containers rendered inline. -/
mutual

def stringify2 (level : Nat) : Json → String
  | .null => "null"
  | .bool true => "true"
  | .bool false => "false"
  | .num n => toString n
  | .str s => jsonQuote s
  | .arr [] => "[]"
  | .arr (x :: xs) =>
    "[\n" ++ String.intercalate ",\n" (stringifyElems (level + 1) (x :: xs)) ++
      "\n" ++ spaces (2 * level) ++ "]"
  | .obj [] => "\x7b\x7d"
  | .obj (f :: fs) =>
    "\x7b\n" ++ String.intercalate ",\n" (stringifyFields (level + 1) (f :: fs)) ++
      "\n" ++ spaces (2 * level) ++ "\x7d"

def stringifyElems (level : Nat) : List Json → List String
  | [] => []
  | x :: xs => (spaces (2 * level) ++ stringify2 level x) :: stringifyElems level xs

def stringifyFields (level : Nat) : List (String × Json) → List String
  | [] => []
  | (k, v) :: fs =>
    (spaces (2 * level) ++ jsonQuote k ++ ": " ++ stringify2 level v) :: stringifyFields level fs

end

/-- JSON insignificant whitespace. -/
def jsonWs (c : Char) : Bool :=
  c == ' ' || c == '\t' || c == '\n' || c == '\r'

def hexVal (c : Char) : Option Nat :=
  if c.isDigit then some (c.toNat - 48)
  else if 'a' ≤ c && c ≤ 'f' then some (c.toNat - 87)
  else if 'A' ≤ c && c ≤ 'F' then some (c.toNat - 55)
  else none

/-- The body of a JSON string after its opening quote: literal characters
and the standard escapes, up to the closing quote.  Returns the decoded
characters and the remaining input. -/
def parseStringBody : List Char → Option (List Char × List Char)
  | [] => none
  | '"' :: rest => some ([], rest)
  | '\\' :: e :: rest =>
    (match e with
     | '"' => (parseStringBody rest).map (fun p => ('"' :: p.1, p.2))
     | '\\' => (parseStringBody rest).map (fun p => ('\\' :: p.1, p.2))
     | '/' => (parseStringBody rest).map (fun p => ('/' :: p.1, p.2))
     | 'b' => (parseStringBody rest).map (fun p => (Char.ofNat 8 :: p.1, p.2))
     | 'f' => (parseStringBody rest).map (fun p => (Char.ofNat 12 :: p.1, p.2))
     | 'n' => (parseStringBody rest).map (fun p => ('\n' :: p.1, p.2))
     | 'r' => (parseStringBody rest).map (fun p => ('\r' :: p.1, p.2))
     | 't' => (parseStringBody rest).map (fun p => ('\t' :: p.1, p.2))
     | 'u' =>
       (match rest with
        | h1 :: h2 :: h3 :: h4 :: rest2 =>
          match hexVal h1, hexVal h2, hexVal h3, hexVal h4 with
          | some a, some b, some c, some d =>
            (parseStringBody rest2).map
              (fun p => (Char.ofNat (((a * 16 + b) * 16 + c) * 16 + d) :: p.1, p.2))
          | _, _, _, _ => none
        | _ => none)
     | _ => none)
  | c :: rest =>
    if c.val < 0x20 then none
    else (parseStringBody rest).map (fun p => (c :: p.1, p.2))

/-! A fuel-indexed recursive-descent model of `JSON.parse`.  Faithful on the
manifests the claims touch; numbers are restricted to (optionally signed)
integer literals.  A duplicate object key keeps its first position and last
value, as V8 does — `setField` implements exactly that assignment. -/
mutual

def parseValue : Nat → List Char → Option (Json × List Char)
  | 0, _ => none
  | fuel + 1, cs =>
    match cs.dropWhile jsonWs with
    | 'n' :: 'u' :: 'l' :: 'l' :: rest => some (.null, rest)
    | 't' :: 'r' :: 'u' :: 'e' :: rest => some (.bool true, rest)
    | 'f' :: 'a' :: 'l' :: 's' :: 'e' :: rest => some (.bool false, rest)
    | '"' :: rest => (parseStringBody rest).map (fun p => (.str (String.mk p.1), p.2))
    | '-' :: rest =>
      let ds := rest.takeWhile Char.isDigit
      if ds.isEmpty then none
      else some (.num (-(String.mk ds).toNat!), rest.dropWhile Char.isDigit)
    | '[' :: rest => parseElems fuel rest true
    | '\x7b' :: rest => parseMembers fuel rest true []
    | c :: rest =>
      if c.isDigit then
        let ds := (c :: rest).takeWhile Char.isDigit
        some (.num (String.mk ds).toNat!, (c :: rest).dropWhile Char.isDigit)
      else none
    | [] => none

def parseElems : Nat → List Char → Bool → Option (Json × List Char)
  | 0, _, _ => none
  | fuel + 1, cs, first =>
    match cs.dropWhile jsonWs with
    | ']' :: rest => if first then some (.arr [], rest) else none
    | cs' =>
      match parseValue fuel cs' with
      | none => none
      | some (v, rest) =>
        match rest.dropWhile jsonWs with
        | ',' :: rest2 =>
          (match parseElems fuel rest2 false with
           | some (.arr xs, rest3) => some (.arr (v :: xs), rest3)
           | _ => none)
        | ']' :: rest2 => some (.arr [v], rest2)
        | _ => none

def parseMembers : Nat → List Char → Bool → List (String × Json) → Option (Json × List Char)
  | 0, _, _, _ => none
  | fuel + 1, cs, first, acc =>
    match cs.dropWhile jsonWs with
    | '\x7d' :: rest => if first then some (.obj acc, rest) else none
    | '"' :: rest =>
      (match parseStringBody rest with
       | none => none
       | some (key, rest2) =>
         match rest2.dropWhile jsonWs with
         | ':' :: rest3 =>
           (match parseValue fuel rest3 with
            | none => none
            | some (v, rest4) =>
              let acc' := setField acc (String.mk key) v
              match rest4.dropWhile jsonWs with
              | ',' :: rest5 => parseMembers fuel rest5 false acc'
              | '\x7d' :: rest5 => some (.obj acc', rest5)
              | _ => none)
         | _ => none)
    | _ => none

end

/-- `JSON.parse` of a whole document. -/
def parseJson (content : String) : Option Json :=
  let cs := content.toList
  match parseValue (cs.length + 1) cs with
  | some (v, rest) => if (rest.dropWhile jsonWs).isEmpty then some v else none
  | none => none

/-- `GitStore.updatePackageVersion`: read the manifest, `JSON.parse` it,
assign `packageJson.version = newVersion`, and write
`JSON.stringify(packageJson, null, 2)` followed by a newline.  `none` models
the wrapped `GitError` path (unreadable or unparseable manifest, or the
strict-mode `TypeError` of assigning a property on a primitive); a parsed
array accepts the property invisibly and is re-serialized unchanged. -/
def GitStore.updatePackageVersion (newVersion : String) (content : String) : Option String :=
  match parseJson content with
  | some (.obj fs) =>
    some (stringify2 0 (.obj (setField fs "version" (.str newVersion))) ++ "\n")
  | some (.arr xs) => some (stringify2 0 (.arr xs) ++ "\n")
  | _ => none

/-! ## Release pipeline (`createReleaseWorkflow`) -/

/-- `ReleaseOptions`: every flag is optional in the source; `none` models
`undefined`. -/
structure ReleaseOptions where
  type : Option BumpKind := none
  skipTests : Option Bool := none
  skipLint : Option Bool := none
  skipCloudflare : Option Bool := none
  force : Option Bool := none
  nonInteractive : Option Bool := none
deriving DecidableEq

/-- The repository/filesystem state the pre-flight block can touch. -/
structure RepoState where
  changedFiles : List String
  commits : List String
  tags : List String
  manifest : String
  stashes : List (List String)
deriving DecidableEq

/-- The operator's answer to the uncommitted-changes prompt (with the
commit-message answer of the follow-up prompt). -/
inductive PreAnswer where
  | commitAll (message : String)
  | stash
  | forceAnyway
deriving DecidableEq

/-- The slice of the shared `WorkflowContext` the modelled tail steps
read or write. -/
structure WCtx where
  versionNext : String := ""
  commits : List CommitInfo := []
  cloudflareEnv : Option String := none
deriving DecidableEq

/-- First match of `/https?:\/\/\S+/`: scan for the leftmost `http://` or
`https://` and take the maximal run of non-whitespace from there. -/
def firstUrl : List Char → Option String
  | [] => none
  | c :: rest =>
    let cand := c :: rest
    let tail? : Option (List Char) :=
      match cand with
      | 'h' :: 't' :: 't' :: 'p' :: 's' :: ':' :: '/' :: '/' :: r => some r
      | 'h' :: 't' :: 't' :: 'p' :: ':' :: '/' :: '/' :: r => some r
      | _ => none
    match tail? with
    | some r =>
      let proto := cand.take (cand.length - r.length)
      some (String.mk (proto ++ r.takeWhile (fun ch => !ch.isWhitespace)))
    | none => firstUrl rest

/-- The categorized title the Cloudflare step sets when `wrangler deploy`
throws: missing config, not authenticated, or generic — and it never
rethrows. -/
def deployFailTitle (errorMessage : String) : String :=
  if strContains errorMessage "Missing entry-point" then
    "Deploy to Cloudflare - ⚠️ Failed: No wrangler config (continuing)"
  else if strContains errorMessage "not authenticated" then
    "Deploy to Cloudflare - ⚠️ Failed: Not authenticated (continuing)"
  else
    "Deploy to Cloudflare - ⚠️ Failed (continuing)"

/-- The `Deploy to Cloudflare` task body.  `wrangler` is the outcome of
`execa('npx', ['wrangler', 'deploy'])` (captured stdout or thrown message).
On success it records the deployment in the context and sets the success
title; the catch branch only sets a categorized title. -/
def cloudflareDeployTask (wrangler : Except String String) : TaskFn WCtx :=
  fun ctx =>
    match wrangler with
    | .ok out =>
      .ok ({ ctx with cloudflareEnv := some "production" },
        some ("Deploy to Cloudflare - ✅ " ++ ((firstUrl out.toList).getD "Deployed successfully")))
    | .error e => .ok (ctx, some (deployFailTitle e))

/-- The title the GitHub-release step sets, given the outcome of
`gh release create`: success, or a categorized failure — never a rethrow. -/
def githubReleaseTitle (gh : Except String Unit) (versionNext : String) : String :=
  match gh with
  | .ok _ => "Create GitHub release - ✅ v" ++ versionNext ++ " → npm via Actions"
  | .error e =>
    if strContains e "gh: command not found" then
      "Create GitHub release - ⚠️ Failed: GitHub CLI not installed"
    else if strContains e "not authenticated" || strContains e "401" then
      "Create GitHub release - ⚠️ Failed: Not authenticated"
    else
      "Create GitHub release - ⚠️ Failed (continuing)"

/-- The `Create GitHub release` task body; both branches complete
normally. -/
def githubReleaseTask (gh : Except String Unit) : TaskFn WCtx :=
  fun ctx => .ok (ctx, some (githubReleaseTitle gh ctx.versionNext))

/-- Task identifiers for the leaf bodies of the release pipeline, in
document order. -/
def lintTaskId : Nat := 0
def typecheckTaskId : Nat := 1
def testsTaskId : Nat := 2
def gitAnalysisTaskId : Nat := 3
def versionCalcTaskId : Nat := 4
def deployConfigTaskId : Nat := 5
def updatePackageTaskId : Nat := 6
def changelogTaskId : Nat := 7
def commitReleaseTaskId : Nat := 8
def createTagTaskId : Nat := 9
def pushTaskId : Nat := 10
def buildTaskId : Nat := 11
def cloudflareTaskId : Nat := 12
def githubReleaseTaskId : Nat := 13

/-- The step list `createReleaseWorkflow` returns, with each step's title,
skip predicate, and subtask structure as built in the source.  The skip
predicates close over the (possibly defaulted/mutated) options object:
`() => options.skipLint || false`, `() => options.skipTests || false`,
`() => options.skipCloudflare || false`. -/
def releaseSteps (opts : ReleaseOptions) : List (Step WCtx) :=
  [ .mk "Quality Gates" .undef .undef 0 none true
      [ .mk "Auto-fix linting issues" .undef (.fn fun _ => .b (optTruthy opts.skipLint)) 0
          (some lintTaskId) false [] false,
        .mk "Type checking" .undef .undef 0 (some typecheckTaskId) false [] false,
        .mk "Running tests" .undef (.fn fun _ => .b (optTruthy opts.skipTests)) 0
          (some testsTaskId) false [] false ] false,
    .mk "Git repository analysis" .undef .undef 0 (some gitAnalysisTaskId) false [] false,
    .mk "Version calculation" .undef .undef 0 (some versionCalcTaskId) false [] false,
    .mk "Deployment configuration" .undef .undef 0 (some deployConfigTaskId) false [] false,
    .mk "Release execution" .undef .undef 0 none true
      [ .mk "Update package.json version" .undef .undef 0 (some updatePackageTaskId) false [] false,
        .mk "Generate changelog" .undef .undef 0 (some changelogTaskId) false [] false,
        .mk "Commit release changes" .undef .undef 0 (some commitReleaseTaskId) false [] false,
        .mk "Create git tag" .undef .undef 0 (some createTagTaskId) false [] false,
        .mk "Push to remote" .undef .undef 0 (some pushTaskId) false [] false ] false,
    .mk "Build project" .undef .undef 0 (some buildTaskId) false [] false,
    .mk "Deploy to Cloudflare" .undef (.fn fun _ => .b (optTruthy opts.skipCloudflare)) 0
      (some cloudflareTaskId) false [] false,
    .mk "Create GitHub release" .undef .undef 0 (some githubReleaseTaskId) false [] false ]

/-- How `createReleaseWorkflow` can leave the caller: the process exited
with a status code before any step was built, or the step list was
returned. -/
abbrev WorkflowBuildResult := Except Nat (List (Step WCtx))

/-- `createReleaseWorkflow(options)` up to the returned step list.  First
the `skipCloudflare === undefined` default is applied; then, unless the run
is forced, uncommitted changes are resolved: interactively through the
operator's `answer` (commit everything, stash, or flip `force` on), and in
non-interactive mode with `process.exit(1)`.  The repository state is
returned alongside so its (non-)mutation is observable. -/
def createReleaseWorkflowModel (opts0 : ReleaseOptions) (answer : PreAnswer)
    (st : RepoState) : WorkflowBuildResult × RepoState × ReleaseOptions :=
  let opts := if opts0.skipCloudflare = none then { opts0 with skipCloudflare := some true } else opts0
  if optTruthy opts.force then (.ok (releaseSteps opts), st, opts)
  else if st.changedFiles.isEmpty then (.ok (releaseSteps opts), st, opts)
  else if optTruthy opts.nonInteractive then (.error 1, st, opts)
  else
    match answer with
    | .commitAll msg =>
      (.ok (releaseSteps opts),
        { st with changedFiles := [], commits := st.commits ++ [msg] }, opts)
    | .stash =>
      (.ok (releaseSteps opts),
        { st with changedFiles := [], stashes := st.stashes ++ [st.changedFiles] }, opts)
    | .forceAnyway =>
      let opts' := { opts with force := some true }
      (.ok (releaseSteps opts'), st, opts')

/-- The task environment for the modelled tail of the release pipeline:
the two best-effort publication steps are the modelled bodies, every other
identifier resolves to an inert body (never reached by the runs below). -/
def releaseTailTasks (wrangler : Except String String) (gh : Except String Unit) :
    Nat → TaskFn WCtx :=
  fun id =>
    if id = cloudflareTaskId then cloudflareDeployTask wrangler
    else if id = githubReleaseTaskId then githubReleaseTask gh
    else fun ctx => .ok (ctx, none)

/-! ## Helper lemmas -/

theorem invokedIds_append (a b : List Event) :
    invokedIds (a ++ b) = invokedIds a ++ invokedIds b := by
  simp [invokedIds, List.filterMap_append]

theorem runAttempts_of_ok {Ctx : Type} (tasks : Nat → TaskFn Ctx) (id : Nat) (ctx : Ctx)
    (n : Nat) (c : Ctx) (t : Option String) (h : tasks id ctx = .ok (c, t)) :
    runAttempts tasks id ctx n = ([.invoked id t], .ok c) := by
  cases n <;> simp [runAttempts, h]

theorem optTruthy_eq_true (o : Option Bool) : optTruthy o = true ↔ o = some true := by
  cases o with
  | none => simp [optTruthy]
  | some b => cases b <;> simp [optTruthy]

/-! On a tree without `skip`/`enabled` fields or concurrent groups, and
with every task body succeeding, execution emits exactly the depth-first
leaf tasks and succeeds. -/
mutual

theorem execStep_plain {Ctx : Type} (tasks : Nat → TaskFn Ctx)
    (hok : ∀ id c, ∃ c' t, tasks id c = .ok (c', t)) :
    ∀ (s : Step Ctx) (ctx : Ctx), plainStep s = true →
      invokedIds (execStep tasks s ctx).1 = leafTasksStep s ∧
      ∃ c', (execStep tasks s ctx).2 = .ok c'
  | .mk title en sk retry taskId hasSubs subs conc, ctx, hp => by
    cases en <;> cases sk <;> simp [plainStep] at hp
    case undef.undef =>
      obtain ⟨-, hsubs⟩ := hp
      cases hasSubs with
      | true =>
        have h := execList_plain tasks hok subs ctx hsubs
        simpa [execStep, evalEnabled, skipOutcome, evalSkip, leafTasksStep] using h
      | false =>
        cases taskId with
        | none => simp [execStep, evalEnabled, skipOutcome, evalSkip, leafTasksStep, invokedIds]
        | some id =>
          obtain ⟨c', t, ht⟩ := hok id ctx
          simp [execStep, evalEnabled, skipOutcome, evalSkip, leafTasksStep,
            runAttempts_of_ok tasks id ctx retry c' t ht, invokedIds]

theorem execList_plain {Ctx : Type} (tasks : Nat → TaskFn Ctx)
    (hok : ∀ id c, ∃ c' t, tasks id c = .ok (c', t)) :
    ∀ (l : List (Step Ctx)) (ctx : Ctx), plainList l = true →
      invokedIds (execList tasks l ctx).1 = leafTasksList l ∧
      ∃ c', (execList tasks l ctx).2 = .ok c'
  | [], ctx, _ => by simp [execList, invokedIds, leafTasksList]
  | s :: rest, ctx, hp => by
    simp only [plainList, Bool.and_eq_true] at hp
    obtain ⟨h1, h2⟩ := hp
    obtain ⟨hinv, c', hstep2⟩ := execStep_plain tasks hok s ctx h1
    rcases hstep : execStep tasks s ctx with ⟨evs, r⟩
    rw [hstep] at hinv hstep2
    simp only at hinv hstep2
    subst hstep2
    obtain ⟨hinv2, c'', hrest2⟩ := execList_plain tasks hok rest c' h2
    refine ⟨?_, c'', ?_⟩ <;>
      simp [execList, hstep, invokedIds_append, hinv, hinv2, leafTasksList, hrest2]

end

/-- For every step list the model returns, the list is `releaseSteps` of the
returned options, and those options carry the defaulted `skipCloudflare`. -/
theorem createReleaseWorkflowModel_ok (opts : ReleaseOptions) (answer : PreAnswer)
    (st : RepoState) (steps : List (Step WCtx)) (st' : RepoState) (o' : ReleaseOptions)
    (h : createReleaseWorkflowModel opts answer st = (.ok steps, st', o')) :
    steps = releaseSteps o' ∧
    o'.skipCloudflare = (if opts.skipCloudflare = none then some true else opts.skipCloudflare) := by
  simp only [createReleaseWorkflowModel] at h
  generalize hO : (if opts.skipCloudflare = none then { opts with skipCloudflare := some true }
    else opts : ReleaseOptions) = o1 at h
  have hsk1 : o1.skipCloudflare =
      (if opts.skipCloudflare = none then some true else opts.skipCloudflare) := by
    rw [← hO]
    by_cases hd : opts.skipCloudflare = none <;> simp [hd]
  clear hO
  split at h
  · simp only [Prod.mk.injEq, Except.ok.injEq] at h
    obtain ⟨h1, -, h3⟩ := h
    subst h3; subst h1
    exact ⟨rfl, hsk1⟩
  · split at h
    · simp only [Prod.mk.injEq, Except.ok.injEq] at h
      obtain ⟨h1, -, h3⟩ := h
      subst h3; subst h1
      exact ⟨rfl, hsk1⟩
    · split at h
      · exact absurd h (by simp)
      · cases answer <;> simp only [Prod.mk.injEq, Except.ok.injEq] at h <;>
          obtain ⟨h1, -, h3⟩ := h <;> subst h3 <;> subst h1
        · exact ⟨rfl, hsk1⟩
        · exact ⟨rfl, hsk1⟩
        · exact ⟨rfl, by simpa using hsk1⟩

/-! ## Claim theorems -/

/-- C1: for every step tree in which no step has a `skip` or `enabled`
predicate and no subtask group is marked concurrent, and whose task bodies
all succeed, `TaskEngine.execute` invokes the task function of every leaf
step exactly once, in depth-first document order of the step tree, and the
run completes successfully. -/
theorem c1_execute_invokes_leaves_once_in_order {Ctx : Type}
    (tasks : Nat → TaskFn Ctx) (steps : List (Step Ctx)) (ctx : Ctx)
    (hplain : plainList steps = true)
    (hok : ∀ id c, ∃ c' t, tasks id c = .ok (c', t)) :
    invokedIds (TaskEngine.execute tasks steps ctx).1 = leafTasksList steps ∧
    ∃ c', (TaskEngine.execute tasks steps ctx).2 = .ok c' := by
  obtain ⟨h1, c', h2⟩ := execList_plain tasks hok steps ctx hplain
  rcases hrun : execList tasks steps ctx with ⟨evs, r⟩
  rw [hrun] at h1 h2
  simp only at h1 h2
  subst h2
  exact ⟨by simpa [TaskEngine.execute, hrun] using h1,
    c', by simp [TaskEngine.execute, hrun]⟩

/-- Witness for C1 at a concrete tree: a leaf, a sequential group of two
leaves, and a task-less leaf, with always-succeeding bodies. -/
theorem c1_witness :
    invokedIds (TaskEngine.execute (fun id c => (.ok (c + id, none) : Except String (Nat × Option String)))
      [Step.mk "a" .undef .undef 0 (some 0) false [] false,
       Step.mk "g" .undef .undef 0 none true
         [Step.mk "b" .undef .undef 0 (some 1) false [] false,
          Step.mk "c" .undef .undef 0 (some 2) false [] false] false,
       Step.mk "d" .undef .undef 0 none false [] false] 0).1 =
      leafTasksList
      ([Step.mk "a" .undef .undef 0 (some 0) false [] false,
       Step.mk "g" .undef .undef 0 none true
         [Step.mk "b" .undef .undef 0 (some 1) false [] false,
          Step.mk "c" .undef .undef 0 (some 2) false [] false] false,
       Step.mk "d" .undef .undef 0 none false [] false] : List (Step Nat)) ∧
    ∃ c', (TaskEngine.execute (fun id c => (.ok (c + id, none) : Except String (Nat × Option String)))
      [Step.mk "a" .undef .undef 0 (some 0) false [] false,
       Step.mk "g" .undef .undef 0 none true
         [Step.mk "b" .undef .undef 0 (some 1) false [] false,
          Step.mk "c" .undef .undef 0 (some 2) false [] false] false,
       Step.mk "d" .undef .undef 0 none false [] false] 0).2 = .ok c' :=
  c1_execute_invokes_leaves_once_in_order _ _ 0 (by rfl)
    (fun id c => ⟨c + id, none, rfl⟩)

/-- C2: a step whose `skip` field evaluates (the step being enabled, so the
predicate is consulted at all) to `true` or to a non-empty string invokes
neither its task function nor any task of its subtasks: execution emits
exactly one `skipped` event carrying the returned string as the reason when
one was returned, and leaves the context unchanged. -/
theorem c2_truthy_skip_never_invokes {Ctx : Type} (tasks : Nat → TaskFn Ctx)
    (s : Step Ctx) (ctx : Ctx) (r : SkipRes)
    (hen : evalEnabled s.enabled ctx = true)
    (hskip : evalSkip s.skip ctx = some r)
    (htruthy : r.truthy = true) :
    execStep tasks s ctx = ([.skipped s.title r.reason], .ok ctx) ∧
    invokedIds (execStep tasks s ctx).1 = [] ∧
    (∀ v, r = .s v → r.reason = some v) := by
  cases s with
  | mk title en sk retry tid hs subs conc =>
    simp only [Step.enabled] at hen
    simp only [Step.skip] at hskip
    refine ⟨?_, ?_, ?_⟩
    · simp [execStep, hen, skipOutcome, hskip, htruthy, Step.title]
    · simp [execStep, hen, skipOutcome, hskip, htruthy, invokedIds]
    · rintro v rfl
      simp only [SkipRes.truthy] at htruthy
      simp [SkipRes.reason, Bool.not_eq_true'] at htruthy ⊢
      simp [htruthy]

/-- Witness for C2: a step with subtasks and a skip predicate returning the
non-empty string reason. -/
theorem c2_witness :
    execStep (fun _ c => (.ok (c, none) : Except String (Unit × Option String)))
      (Step.mk "t" .undef (.lit (.s "because")) 0 (some 0) true
        [Step.mk "sub" .undef .undef 0 (some 1) false [] false] false) () =
      ([.skipped "t" (SkipRes.s "because").reason], .ok ()) ∧
    invokedIds (execStep (fun _ c => (.ok (c, none) : Except String (Unit × Option String)))
      (Step.mk "t" .undef (.lit (.s "because")) 0 (some 0) true
        [Step.mk "sub" .undef .undef 0 (some 1) false [] false] false) ()).1 = [] ∧
    (∀ v, SkipRes.s "because" = .s v → (SkipRes.s "because").reason = some v) :=
  c2_truthy_skip_never_invokes _ _ () (SkipRes.s "because") rfl rfl rfl

/-- C3: started non-interactively without the force flag on a repository
with uncommitted changes, the pipeline exits the process with status 1
before any step list is even built — so no quality-gate step can execute —
and the repository state (manifest, tags, commits, working tree) is
returned untouched. -/
theorem c3_noninteractive_dirty_exits_one (opts : ReleaseOptions) (answer : PreAnswer)
    (st : RepoState)
    (hni : optTruthy opts.nonInteractive = true)
    (hforce : optTruthy opts.force = false)
    (hdirty : st.changedFiles ≠ []) :
    ∃ o', createReleaseWorkflowModel opts answer st = (.error 1, st, o') := by
  refine ⟨if opts.skipCloudflare = none then { opts with skipCloudflare := some true }
    else opts, ?_⟩
  have hde : st.changedFiles.isEmpty = false := by
    simpa [List.isEmpty_iff] using hdirty
  by_cases hd : opts.skipCloudflare = none <;>
    simp [createReleaseWorkflowModel, hd, hforce, hni, hde]

/-- Witness for C3 at a concrete dirty, non-interactive invocation. -/
theorem c3_witness :
    ∃ o', createReleaseWorkflowModel
      { nonInteractive := some true } PreAnswer.stash
      { changedFiles := ["src/index.ts"], commits := ["init"], tags := ["v1.0.0"],
        manifest := "", stashes := [] } =
      (.error 1,
       { changedFiles := ["src/index.ts"], commits := ["init"], tags := ["v1.0.0"],
         manifest := "", stashes := [] }, o') :=
  c3_noninteractive_dirty_exits_one _ _ _ rfl rfl (by simp)

/-- C4: with no forced bump kind, the version calculation chooses major
exactly when some commit since the last tag has its breaking flag set, else
minor exactly when some commit has type `feat`, else patch; and the commit
message `feat(api)!: remove legacy endpoint` parses to type `feat`, scope
`api`, breaking `true`, whose presence yields a major bump regardless of
every other commit. -/
theorem c4_bump_inference_and_breaking_feat :
    (∀ commits : List CommitInfo,
      (versionBumpOf none commits = .major ↔ ∃ c ∈ commits, c.breaking = some true) ∧
      (versionBumpOf none commits = .minor ↔
        (¬ (∃ c ∈ commits, c.breaking = some true) ∧ ∃ c ∈ commits, c.type? = some "feat")) ∧
      (versionBumpOf none commits = .patch ↔
        (¬ (∃ c ∈ commits, c.breaking = some true) ∧
         ¬ ∃ c ∈ commits, c.type? = some "feat"))) ∧
    (∀ (hash author : String) (date : Int),
      (GitStore.parseCommit ⟨hash, "feat(api)!: remove legacy endpoint", author, date⟩).type? =
        some "feat" ∧
      (GitStore.parseCommit ⟨hash, "feat(api)!: remove legacy endpoint", author, date⟩).scope? =
        some "api" ∧
      (GitStore.parseCommit ⟨hash, "feat(api)!: remove legacy endpoint", author, date⟩).breaking =
        some true) ∧
    (∀ (pre post : List CommitInfo) (hash author : String) (date : Int),
      versionBumpOf none
        (pre ++ GitStore.parseCommit ⟨hash, "feat(api)!: remove legacy endpoint", author, date⟩
          :: post) = .major) := by
  have hparse : ∀ (hash author : String) (date : Int),
      GitStore.parseCommit ⟨hash, "feat(api)!: remove legacy endpoint", author, date⟩ =
        { hash := hash, message := "feat(api)!: remove legacy endpoint", author := author,
          dateMs := date, type? := some "feat", scope? := some "api", breaking := some true } := by
    intro hash author date
    rfl
  refine ⟨?_, ?_, ?_⟩
  · intro commits
    have ha : (commits.any (fun c => optTruthy c.breaking) = true) ↔
        ∃ c ∈ commits, c.breaking = some true := by
      simp [List.any_eq_true, optTruthy_eq_true]
    have hb : (commits.any (fun c => c.type? == some "feat") = true) ↔
        ∃ c ∈ commits, c.type? = some "feat" := by
      simp [List.any_eq_true]
    cases hA : commits.any (fun c => optTruthy c.breaking) with
    | true =>
      have h1 := ha.mp hA
      refine ⟨iff_of_true (by simp [versionBumpOf, inferBump, hA]) h1, ?_, ?_⟩
      · exact iff_of_false (by simp [versionBumpOf, inferBump, hA]) (fun hx => hx.1 h1)
      · exact iff_of_false (by simp [versionBumpOf, inferBump, hA]) (fun hx => hx.1 h1)
    | false =>
      have h1 : ¬ ∃ c ∈ commits, c.breaking = some true := by
        intro hx
        rw [ha.mpr hx] at hA
        cases hA
      cases hB : commits.any (fun c => c.type? == some "feat") with
      | true =>
        have h2 := hb.mp hB
        refine ⟨iff_of_false (by simp [versionBumpOf, inferBump, hA, hB]) h1,
          iff_of_true (by simp [versionBumpOf, inferBump, hA, hB]) ⟨h1, h2⟩,
          iff_of_false (by simp [versionBumpOf, inferBump, hA, hB]) (fun hx => hx.2 h2)⟩
      | false =>
        have h2 : ¬ ∃ c ∈ commits, c.type? = some "feat" := by
          intro hx
          rw [hb.mpr hx] at hB
          cases hB
        refine ⟨iff_of_false (by simp [versionBumpOf, inferBump, hA, hB]) h1,
          iff_of_false (by simp [versionBumpOf, inferBump, hA, hB]) (fun hx => h2 hx.2),
          iff_of_true (by simp [versionBumpOf, inferBump, hA, hB]) ⟨h1, h2⟩⟩
  · intro hash author date
    rw [hparse]
    exact ⟨rfl, rfl, rfl⟩
  · intro pre post hash author date
    rw [hparse]
    simp [versionBumpOf, inferBump, List.any_append, optTruthy]

/-- Witness for C4: a breaking feat commit surrounded by a fix and a chore
still yields a major bump. -/
theorem c4_witness :
    versionBumpOf none
      ([GitStore.parseCommit ⟨"h0", "fix: correct y", "alice", 0⟩] ++
        GitStore.parseCommit ⟨"h1", "feat(api)!: remove legacy endpoint", "alice", 0⟩ ::
          [GitStore.parseCommit ⟨"h2", "chore: bump deps", "alice", 0⟩]) = .major :=
  c4_bump_inference_and_breaking_feat.2.2
    [GitStore.parseCommit ⟨"h0", "fix: correct y", "alice", 0⟩]
    [GitStore.parseCommit ⟨"h2", "chore: bump deps", "alice", 0⟩] "h1" "alice" 0

/-- C6 counterexample: for the unparseable message `update all the things`,
`parseCommit` leaves `type`/`scope` absent but assigns `breaking` the
defaulted boolean `false` — the field is present, not absent as claimed. -/
theorem c6_counterexample :
    convMatch "update all the things" = none ∧
    (GitStore.parseCommit ⟨"abc123", "update all the things", "alice", 0⟩).type? = none ∧
    (GitStore.parseCommit ⟨"abc123", "update all the things", "alice", 0⟩).scope? = none ∧
    (GitStore.parseCommit ⟨"abc123", "update all the things", "alice", 0⟩).breaking = some false ∧
    (GitStore.parseCommit ⟨"abc123", "update all the things", "alice", 0⟩).breaking ≠ none := by
  refine ⟨rfl, rfl, rfl, rfl, by decide⟩

/-- C6 as amended: for every commit whose message does not match the
conventional-commit grammar, the parsed record retains the raw fields
(hash, message, author, date) and leaves `type` and `scope` absent, while
`breaking` is present and defaulted to `false`. -/
theorem c6_unparseable_keeps_raw_fields (raw : RawCommit)
    (h : convMatch raw.message = none) :
    (GitStore.parseCommit raw).type? = none ∧
    (GitStore.parseCommit raw).scope? = none ∧
    (GitStore.parseCommit raw).breaking = some false ∧
    (GitStore.parseCommit raw).hash = raw.hash ∧
    (GitStore.parseCommit raw).message = raw.message ∧
    (GitStore.parseCommit raw).author = raw.author_name ∧
    (GitStore.parseCommit raw).dateMs = raw.dateMs := by
  simp [GitStore.parseCommit, h]

/-- Witness for the amended C6 at a concrete unparseable message. -/
theorem c6_witness :
    (GitStore.parseCommit ⟨"def456", "WIP fixing the build", "bob", 7⟩).type? = none ∧
    (GitStore.parseCommit ⟨"def456", "WIP fixing the build", "bob", 7⟩).scope? = none ∧
    (GitStore.parseCommit ⟨"def456", "WIP fixing the build", "bob", 7⟩).breaking = some false ∧
    (GitStore.parseCommit ⟨"def456", "WIP fixing the build", "bob", 7⟩).hash = "def456" ∧
    (GitStore.parseCommit ⟨"def456", "WIP fixing the build", "bob", 7⟩).message =
      "WIP fixing the build" ∧
    (GitStore.parseCommit ⟨"def456", "WIP fixing the build", "bob", 7⟩).author = "bob" ∧
    (GitStore.parseCommit ⟨"def456", "WIP fixing the build", "bob", 7⟩).dateMs = 7 :=
  c6_unparseable_keeps_raw_fields ⟨"def456", "WIP fixing the build", "bob", 7⟩ rfl

/-- C7: when the Cloudflare deploy command throws, the deploy step completes
without propagating the error, only setting a categorized title — missing
config, not authenticated, or generic — and the subsequent Create GitHub
release step still executes and, with `gh release create` succeeding, sets
its success title; the shared context is left unchanged by the failed
deploy. -/
theorem c7_cloudflare_failure_is_not_fatal (opts : ReleaseOptions) (emsg : String)
    (ctx : WCtx) (hsc : opts.skipCloudflare = some false) :
    execList (releaseTailTasks (.error emsg) (.ok ())) ((releaseSteps opts).drop 6) ctx =
      ([.invoked cloudflareTaskId (some (deployFailTitle emsg)),
        .invoked githubReleaseTaskId
          (some ("Create GitHub release - ✅ v" ++ ctx.versionNext ++ " → npm via Actions"))],
       .ok ctx) ∧
    (strContains emsg "Missing entry-point" = true →
      deployFailTitle emsg = "Deploy to Cloudflare - ⚠️ Failed: No wrangler config (continuing)") ∧
    (strContains emsg "Missing entry-point" = false →
      strContains emsg "not authenticated" = true →
      deployFailTitle emsg = "Deploy to Cloudflare - ⚠️ Failed: Not authenticated (continuing)") ∧
    (strContains emsg "Missing entry-point" = false →
      strContains emsg "not authenticated" = false →
      deployFailTitle emsg = "Deploy to Cloudflare - ⚠️ Failed (continuing)") := by
  have hopt : optTruthy opts.skipCloudflare = false := by rw [hsc]; rfl
  refine ⟨?_, ?_, ?_, ?_⟩
  · simp [releaseSteps, execList, execStep, evalEnabled, skipOutcome, evalSkip,
      SkipRes.truthy, hopt, releaseTailTasks, cloudflareDeployTask, githubReleaseTask,
      githubReleaseTitle, runAttempts, cloudflareTaskId, githubReleaseTaskId]
  · intro h1
    simp [deployFailTitle, h1]
  · intro h1 h2
    simp [deployFailTitle, h1, h2]
  · intro h1 h2
    simp [deployFailTitle, h1, h2]

/-- Witness for C7: an authentication failure from the deploy command with a
successful GitHub-release call. -/
theorem c7_witness :
    execList (releaseTailTasks (.error "wrangler: you are not authenticated") (.ok ()))
      ((releaseSteps { skipCloudflare := some false }).drop 6) {} =
      ([.invoked cloudflareTaskId
          (some (deployFailTitle "wrangler: you are not authenticated")),
        .invoked githubReleaseTaskId
          (some ("Create GitHub release - ✅ v" ++ WCtx.versionNext {} ++ " → npm via Actions"))],
       .ok {}) ∧
    (strContains "wrangler: you are not authenticated" "Missing entry-point" = true →
      deployFailTitle "wrangler: you are not authenticated" =
        "Deploy to Cloudflare - ⚠️ Failed: No wrangler config (continuing)") ∧
    (strContains "wrangler: you are not authenticated" "Missing entry-point" = false →
      strContains "wrangler: you are not authenticated" "not authenticated" = true →
      deployFailTitle "wrangler: you are not authenticated" =
        "Deploy to Cloudflare - ⚠️ Failed: Not authenticated (continuing)") ∧
    (strContains "wrangler: you are not authenticated" "Missing entry-point" = false →
      strContains "wrangler: you are not authenticated" "not authenticated" = false →
      deployFailTitle "wrangler: you are not authenticated" =
        "Deploy to Cloudflare - ⚠️ Failed (continuing)") :=
  c7_cloudflare_failure_is_not_fatal { skipCloudflare := some false }
    "wrangler: you are not authenticated" {} rfl

/-- C10: whenever the caller did not explicitly pass `skipCloudflare` as
`false`, every pipeline the builder returns carries `skipCloudflare = some
true` (the `undefined` case is defaulted to `true` before the step list is
built), and the `Deploy to Cloudflare` step — index 6 of the returned list —
is skipped on every context and under every task environment, its task never
invoked, regardless of the prompt answer or repository state. -/
theorem c10_cloudflare_skipped_unless_false (opts : ReleaseOptions) (answer : PreAnswer)
    (st : RepoState) (hnf : opts.skipCloudflare ≠ some false) :
    ∀ steps st' o', createReleaseWorkflowModel opts answer st = (.ok steps, st', o') →
      o'.skipCloudflare = some true ∧
      ∃ d, steps[6]? = some d ∧ d.title = "Deploy to Cloudflare" ∧
        d.taskId = some cloudflareTaskId ∧
        ∀ (tasks : Nat → TaskFn WCtx) (ctx : WCtx),
          execStep tasks d ctx = ([.skipped "Deploy to Cloudflare" none], .ok ctx) := by
  intro steps st' o' h
  obtain ⟨hsteps, hsc⟩ := createReleaseWorkflowModel_ok opts answer st steps st' o' h
  have hsc' : o'.skipCloudflare = some true := by
    rcases ho : opts.skipCloudflare with _ | b
    · simpa [ho] using hsc
    · cases b
      · exact absurd ho hnf
      · simpa [ho] using hsc
  subst hsteps
  refine ⟨hsc', ?_⟩
  refine ⟨_, rfl, rfl, rfl, ?_⟩
  intro tasks ctx
  simp [releaseSteps]
  simp [execStep, evalEnabled, skipOutcome, evalSkip, hsc', optTruthy, SkipRes.truthy,
    SkipRes.reason]

/-- Witness for C10 at a clean repository and empty options: the builder
defaults `skipCloudflare` and the returned deploy step is skipped. -/
theorem c10_witness :
    ({ skipCloudflare := some true } : ReleaseOptions).skipCloudflare = some true ∧
    ∃ d, (releaseSteps { skipCloudflare := some true })[6]? = some d ∧
      d.title = "Deploy to Cloudflare" ∧ d.taskId = some cloudflareTaskId ∧
      ∀ (tasks : Nat → TaskFn WCtx) (ctx : WCtx),
        execStep tasks d ctx = ([.skipped "Deploy to Cloudflare" none], .ok ctx) :=
  c10_cloudflare_skipped_unless_false {} PreAnswer.stash
    { changedFiles := [], commits := [], tags := [], manifest := "", stashes := [] }
    (by simp) (releaseSteps { skipCloudflare := some true })
    { changedFiles := [], commits := [], tags := [], manifest := "", stashes := [] }
    { skipCloudflare := some true } rfl

/-- C5 counterexample: both listed messages have prefixes matching the
conventional-commit grammar (`feat(api)!: ...` and `chore: ...`), yet the
generated entry lists both verbatim: the breaking-marked feat prefix is not
stripped (the strip regex has no `!`), and other-bucket messages are never
stripped at all. -/
theorem c5_counterexample :
    generateChangelogEntry "2026-01-01" "2.0.0"
      [GitStore.parseCommit ⟨"h1", "feat(api)!: remove legacy endpoint", "alice", 0⟩,
       GitStore.parseCommit ⟨"h2", "chore: bump deps", "alice", 0⟩] =
      "## [2.0.0] - 2026-01-01\n\n### Features\n\n- feat(api)!: remove legacy endpoint\n\n### Other Changes\n\n- chore: bump deps\n\n" ∧
    (convMatch "feat(api)!: remove legacy endpoint").isSome = true ∧
    (convMatch "chore: bump deps").isSome = true := by
  exact ⟨rfl, rfl, rfl⟩

/-- C5 as amended: every generated entry decomposes as the header followed
by the Features section, then Bug Fixes, then Other Changes — each section a
function of its filtered bucket alone, so feat entries always precede fix
entries precede the rest regardless of the commit list's order; a feat/fix
entry whose message starts with the un-banged `type: ` or `type(scope): `
prefix has it stripped exactly once (a second occurrence survives), while
breaking `!` prefixes and other-bucket messages are listed verbatim. -/
theorem c5_changelog_sections_and_stripping :
    (∀ today version commits,
      generateChangelogEntry today version commits =
        changelogHeader today version ++ featuresSection commits ++ fixesSection commits ++
          othersSection commits) ∧
    (∀ rest : String, stripConvHead "feat" ("feat: " ++ rest) = rest) ∧
    (∀ rest : String, stripConvHead "fix" ("fix: " ++ rest) = rest) ∧
    (∀ rest : String, stripConvHead "feat" ("feat(api): " ++ rest) = rest) ∧
    stripConvHead "feat" "feat: feat: x" = "feat: x" ∧
    stripConvHead "feat" "feat(api)!: remove legacy endpoint" =
      "feat(api)!: remove legacy endpoint" := by
  refine ⟨?_, ?_, ?_, ?_, rfl, rfl⟩
  · intro today version commits
    simp only [generateChangelogEntry, changelogHeader, featuresSection, fixesSection,
      othersSection, changelogSection]
    have k1 : ("\n\n" : String) ++ "### Features\n\n" = "\n\n### Features\n\n" := by decide
    have k2 : ("\n\n" : String) ++ "### Bug Fixes\n\n" = "\n\n### Bug Fixes\n\n" := by decide
    have k3 : ("\n\n" : String) ++ "### Other Changes\n\n" = "\n\n### Other Changes\n\n" := by
      decide
    have k4 : ("\n" : String) ++ "### Features\n\n" = "\n### Features\n\n" := by decide
    have k5 : ("\n" : String) ++ "### Bug Fixes\n\n" = "\n### Bug Fixes\n\n" := by decide
    have k6 : ("\n" : String) ++ "### Other Changes\n\n" = "\n### Other Changes\n\n" := by decide
    have m1 : ∀ X : String, "\n\n" ++ ("### Features\n\n" ++ X) = "\n\n### Features\n\n" ++ X :=
      fun X => by rw [← String.append_assoc, k1]
    have m2 : ∀ X : String, "\n\n" ++ ("### Bug Fixes\n\n" ++ X) = "\n\n### Bug Fixes\n\n" ++ X :=
      fun X => by rw [← String.append_assoc, k2]
    have m3 : ∀ X : String,
        "\n\n" ++ ("### Other Changes\n\n" ++ X) = "\n\n### Other Changes\n\n" ++ X :=
      fun X => by rw [← String.append_assoc, k3]
    have m4 : ∀ X : String, "\n" ++ ("### Features\n\n" ++ X) = "\n### Features\n\n" ++ X :=
      fun X => by rw [← String.append_assoc, k4]
    have m5 : ∀ X : String, "\n" ++ ("### Bug Fixes\n\n" ++ X) = "\n### Bug Fixes\n\n" ++ X :=
      fun X => by rw [← String.append_assoc, k5]
    have m6 : ∀ X : String,
        "\n" ++ ("### Other Changes\n\n" ++ X) = "\n### Other Changes\n\n" ++ X :=
      fun X => by rw [← String.append_assoc, k6]
    cases hF : commits.filter isFeatCommit <;>
      cases hX : commits.filter isFixCommit <;>
        cases hO : commits.filter isOtherCommit <;>
          simp [m1, m2, m3, m4, m5, m6, String.append_assoc, String.append_empty,
            String.empty_append]
  · intro rest
    obtain ⟨data⟩ := rest
    rfl
  · intro rest
    obtain ⟨data⟩ := rest
    rfl
  · intro rest
    obtain ⟨data⟩ := rest
    rfl

/-- C8 counterexample: with the queried tag list not containing the name,
an underlying tag-creation failure whose message merely contains `already
exists` is rethrown unwrapped — not wrapped as the generic VCS error the
claim requires for every failure other than the name already existing. -/
theorem c8_counterexample :
    GitStore.createTag (.ok []) (.ok ()) (.error "fatal: tag v1.0.0 already exists")
      "v1.0.0" none = .error (.plain "fatal: tag v1.0.0 already exists") ∧
    ("v1.0.0" ∈ ([] : List String) → False) ∧
    ∀ e, GitStore.createTag (.ok []) (.ok ()) (.error "fatal: tag v1.0.0 already exists")
      "v1.0.0" none ≠ .error (.gitErr e) := by
  refine ⟨rfl, fun hx => (List.not_mem_nil _) hx, ?_⟩
  intro e h
  have h3 := Eq.trans (Eq.symm (rfl :
    GitStore.createTag (.ok []) (.ok ()) (.error "fatal: tag v1.0.0 already exists")
      "v1.0.0" none = .error (.plain "fatal: tag v1.0.0 already exists"))) h
  injection h3 with h4
  cases h4

theorem strContains_append_left (pre s needle : String)
    (h : strContains s needle = true) : strContains (pre ++ s) needle = true := by
  unfold strContains at h ⊢
  rw [decide_eq_true_iff] at h ⊢
  have hsub : s.toList <:+: (pre ++ s).toList := by
    have : (pre ++ s).toList = pre.toList ++ s.toList := by
      simpa [String.toList] using String.data_append pre s
    rw [this]
    exact (List.suffix_append pre.toList s.toList).isInfix
  exact h.trans hsub

/-- The already-exists error `createTag` throws itself always contains the
distinguishing substring, whatever the tag name. -/
theorem tagExistsMsg_contains (tagName : String) :
    strContains (tagExistsMsg tagName) "already exists" = true := by
  unfold tagExistsMsg
  apply strContains_append_left
  decide

/-- C8 as amended: `createTag` fails with the unwrapped already-exists error
(whose message names the condition) whenever the queried tag list already
holds the name; it also passes through unwrapped any other underlying
failure whose message happens to contain `already exists`; every remaining
failure — of the tag-list query or of the tag-creation command — is wrapped
as the generic VCS error `Failed to create tag: <name>: <cause>`; and an
unwrapped failure arises only from an inner error message containing
`already exists`. -/
theorem c8_createTag_classification (tagsQ : Except String (List String))
    (addAnnotated addPlain : Except String Unit) (tagName : String)
    (message? : Option String) :
    (∀ tags, tagsQ = .ok tags → tagName ∈ tags →
      GitStore.createTag tagsQ addAnnotated addPlain tagName message? =
        .error (.plain (tagExistsMsg tagName)) ∧
      strContains (tagExistsMsg tagName) "already exists" = true) ∧
    (∀ e, createTagInner tagsQ addAnnotated addPlain tagName message? = .error e →
      strContains e "already exists" = true →
      GitStore.createTag tagsQ addAnnotated addPlain tagName message? = .error (.plain e)) ∧
    (∀ e, createTagInner tagsQ addAnnotated addPlain tagName message? = .error e →
      strContains e "already exists" = false →
      GitStore.createTag tagsQ addAnnotated addPlain tagName message? =
        .error (.gitErr ("Failed to create tag: " ++ tagName ++ ": " ++ e))) ∧
    (createTagInner tagsQ addAnnotated addPlain tagName message? = .ok () →
      GitStore.createTag tagsQ addAnnotated addPlain tagName message? = .ok ()) ∧
    (∀ e, GitStore.createTag tagsQ addAnnotated addPlain tagName message? =
        .error (.plain e) →
      createTagInner tagsQ addAnnotated addPlain tagName message? = .error e ∧
      strContains e "already exists" = true) := by
  refine ⟨?_, ?_, ?_, ?_, ?_⟩
  · intro tags hq hmem
    have hinner : createTagInner tagsQ addAnnotated addPlain tagName message? =
        .error (tagExistsMsg tagName) := by
      simp [createTagInner, hq, hmem]
    exact ⟨by simp [GitStore.createTag, hinner, tagExistsMsg_contains],
      tagExistsMsg_contains tagName⟩
  · intro e hinner hc
    simp [GitStore.createTag, hinner, hc]
  · intro e hinner hc
    simp [GitStore.createTag, hinner, hc]
  · intro hinner
    simp [GitStore.createTag, hinner]
  · intro e h
    cases hinner : createTagInner tagsQ addAnnotated addPlain tagName message? with
    | ok u =>
      simp [GitStore.createTag, hinner] at h
    | error e' =>
      simp only [GitStore.createTag, hinner] at h
      by_cases hc : strContains e' "already exists" = true
      · rw [if_pos hc] at h
        simp only [Except.error.injEq, GErr.plain.injEq] at h
        subst h
        exact ⟨rfl, hc⟩
      · rw [if_neg hc] at h
        simp at h

/-- Witness for the amended C8: the name already queued in the tag list
yields the unwrapped already-exists error; a plain network failure is
wrapped as the generic VCS error. -/
theorem c8_witness :
    (GitStore.createTag (.ok ["v1.0.0"]) (.ok ()) (.ok ()) "v1.0.0" (some "Release 1.0.0") =
        .error (.plain (tagExistsMsg "v1.0.0")) ∧
      strContains (tagExistsMsg "v1.0.0") "already exists" = true) ∧
    GitStore.createTag (.ok []) (.ok ()) (.error "network down") "v1.0.0" none =
      .error (.gitErr ("Failed to create tag: " ++ "v1.0.0" ++ ": " ++ "network down")) :=
  ⟨(c8_createTag_classification (.ok ["v1.0.0"]) (.ok ()) (.ok ()) "v1.0.0"
      (some "Release 1.0.0")).1 ["v1.0.0"] rfl (by simp),
   (c8_createTag_classification (.ok []) (.ok ()) (.error "network down") "v1.0.0"
      none).2.2.1 "network down" rfl (by decide)⟩

theorem lookupField_setField_self (fs : List (String × Json)) (k : String) (v : Json) :
    lookupField (setField fs k v) k = some v := by
  induction fs with
  | nil => simp [setField, lookupField]
  | cons f fs ih =>
    obtain ⟨k', v'⟩ := f
    by_cases h : k' = k <;> simp [setField, lookupField, List.find?, h] <;>
      simpa [lookupField, List.find?] using ih

theorem lookupField_setField_other (fs : List (String × Json)) (k k' : String) (v : Json)
    (h : k' ≠ k) : lookupField (setField fs k v) k' = lookupField fs k' := by
  induction fs with
  | nil => simp [setField, lookupField, List.find?, Ne.symm h]
  | cons f fs ih =>
    obtain ⟨k0, v0⟩ := f
    by_cases h0 : k0 = k
    · subst h0
      simp [setField, lookupField, List.find?, Ne.symm h]
    · by_cases h1 : k0 = k' <;>
        simp [setField, lookupField, List.find?, h0, h1, h] <;>
        simpa [lookupField, List.find?] using ih

theorem setField_keys (fs : List (String × Json)) (k : String) (v : Json) :
    (setField fs k v).map Prod.fst =
      (if k ∈ fs.map Prod.fst then fs.map Prod.fst else fs.map Prod.fst ++ [k]) := by
  induction fs with
  | nil => simp [setField]
  | cons f fs ih =>
    obtain ⟨k0, v0⟩ := f
    by_cases h0 : k0 = k
    · subst h0
      simp [setField]
    · simp only [setField, h0, if_false, List.map_cons, ih, reduceIte]
      by_cases hm : k ∈ fs.map Prod.fst <;>
        simp [hm, List.mem_cons, Ne.symm h0]

/-- C9 counterexample: rewriting the version of a compact manifest does not
preserve the other content's formatting: the file is re-serialized with
two-space indentation, so the output differs from the original with only
the version value replaced. -/
theorem c9_counterexample :
    GitStore.updatePackageVersion "2.0.0" "\x7b\"name\":\"x\",\"version\":\"1.0.0\"\x7d" =
      some "\x7b\n  \"name\": \"x\",\n  \"version\": \"2.0.0\"\n\x7d\n" ∧
    some "\x7b\n  \"name\": \"x\",\n  \"version\": \"2.0.0\"\n\x7d\n" ≠
      (some "\x7b\"name\":\"x\",\"version\":\"2.0.0\"\x7d" : Option String) := by
  exact ⟨rfl, by decide⟩

/-- C9 as amended: on a parseable object manifest, `updatePackageVersion`
re-serializes the object with the version field assigned: the version field
holds the new value, every other field keeps its value, the key order is
preserved (a fresh `version` key is appended), and the written file is the
two-space-indented serialization terminated by a newline — the original
formatting is normalized, not preserved. -/
theorem c9_updateManifest_rewrites_version (v content : String)
    (fs : List (String × Json)) (h : parseJson content = some (.obj fs)) :
    GitStore.updatePackageVersion v content =
      some (stringify2 0 (.obj (setField fs "version" (.str v))) ++ "\n") ∧
    (∃ pre, stringify2 0 (.obj (setField fs "version" (.str v))) ++ "\n" = pre ++ "\n") ∧
    lookupField (setField fs "version" (.str v)) "version" = some (.str v) ∧
    (∀ k, k ≠ "version" →
      lookupField (setField fs "version" (.str v)) k = lookupField fs k) ∧
    (setField fs "version" (.str v)).map Prod.fst =
      (if "version" ∈ fs.map Prod.fst then fs.map Prod.fst
       else fs.map Prod.fst ++ ["version"]) := by
  refine ⟨by simp [GitStore.updatePackageVersion, h], ⟨_, rfl⟩,
    lookupField_setField_self fs "version" (.str v),
    fun k hk => lookupField_setField_other fs "version" k (.str v) hk,
    setField_keys fs "version" (.str v)⟩

/-- Witness for the amended C9 at a concrete two-field manifest. -/
theorem c9_witness :
    GitStore.updatePackageVersion "2.0.0" "\x7b\"name\":\"x\",\"version\":\"1.0.0\"\x7d" =
      some (stringify2 0
        (.obj (setField [("name", .str "x"), ("version", .str "1.0.0")] "version"
          (.str "2.0.0"))) ++ "\n") ∧
    (∃ pre, stringify2 0
        (.obj (setField [("name", .str "x"), ("version", .str "1.0.0")] "version"
          (.str "2.0.0"))) ++ "\n" = pre ++ "\n") ∧
    lookupField (setField [("name", .str "x"), ("version", .str "1.0.0")] "version"
      (.str "2.0.0")) "version" = some (.str "2.0.0") ∧
    (∀ k, k ≠ "version" →
      lookupField (setField [("name", .str "x"), ("version", .str "1.0.0")] "version"
        (.str "2.0.0")) k =
      lookupField [("name", .str "x"), ("version", .str "1.0.0")] k) ∧
    (setField [("name", .str "x"), ("version", .str "1.0.0")] "version"
      (.str "2.0.0")).map Prod.fst =
      (if "version" ∈ ([("name", Json.str "x"), ("version", Json.str "1.0.0")]).map Prod.fst
       then ([("name", Json.str "x"), ("version", Json.str "1.0.0")]).map Prod.fst
       else ([("name", Json.str "x"), ("version", Json.str "1.0.0")]).map Prod.fst ++
         ["version"]) :=
  c9_updateManifest_rewrites_version "2.0.0" "\x7b\"name\":\"x\",\"version\":\"1.0.0\"\x7d"
    [("name", .str "x"), ("version", .str "1.0.0")] rfl

end Workflow
